import Mathlib

/-!
Shallow embedding of the NASEA leaderboard program (`src/streamlit_app.py`)
and proofs about its specification.

The program is a linear pipeline: read a table, normalize its columns,
clean/validate rows, score each row, sort and rank, paginate by a tick
counter, and render an HTML table.  Machine floats are modelled as `Rat`
(all constants involved are small integers); pandas missing values (`NaN`)
are modelled by `Cell.na`; the `ValueError` raised by `normalize_columns`
is modelled as `Except.error` carrying the observed header list.
-/

/-- A raw spreadsheet cell: either a missing value (pandas `NaN`) or a string.
Numeric cells delivered by `read_csv` are modelled through their string form,
which is what `astype(str)` produces before any further processing. -/
inductive Cell where
  | na : Cell
  | str (s : String) : Cell
deriving DecidableEq, Repr

/-- A raw table: a header row plus data rows, as produced by `pd.read_csv`. -/
structure Table where
  headers : List String
  rows : List (List Cell)
deriving DecidableEq, Repr

/-- Python `str.strip()`: remove leading and trailing whitespace. -/
def pyStrip (s : String) : String :=
  ⟨(((s.data.dropWhile Char.isWhitespace).reverse).dropWhile Char.isWhitespace).reverse⟩

/-- Python `str.lower()` (ASCII case mapping suffices for the fixed vocabulary). -/
def pyLower (s : String) : String :=
  ⟨s.data.map Char.toLower⟩

/-- Python `str.replace(pat, rep)` restricted to single-character patterns,
the only form this program uses (`","` and the three markup characters). -/
def pyReplaceChar (l : List Char) (pat : Char) (rep : List Char) : List Char :=
  match l with
  | [] => []
  | c :: cs => (if c = pat then rep else [c]) ++ pyReplaceChar cs pat rep

/-- Python `str(x)` as applied elementwise by `astype(str)`: a missing value
(`NaN`) prints as the literal text `"nan"`. -/
def cellToStr (c : Cell) : String :=
  match c with
  | Cell.na => "nan"
  | Cell.str s => s

/-- The internal schema produced by `normalize_columns`. -/
def internal_headers : List String := ["team_name", "cost_k", "outcome", "em_completed"]

/-- `df[name]` column lookup for one row: locate the (first) column whose
header equals `name` and project the row onto it. -/
def selectCell (df : Table) (r : List Cell) (name : String) : Cell :=
  match df.headers.findIdx? (· == name) with
  | some i => r.getD i Cell.na
  | none => Cell.na

/-- The EM-column alias resolution at the top of `normalize_columns`
(src/streamlit_app.py:35-39): the plural header is preferred, then the
singular one. -/
def em_header (df : Table) : Option String :=
  if df.headers.contains "EM Questions Completed" then some "EM Questions Completed"
  else if df.headers.contains "EM Question Completed" then some "EM Question Completed"
  else none

/-- `normalize_columns` (src/streamlit_app.py:28-54).  Primary strategy: pick
the four columns by exact header name (in any column position); fallback: with
at least 5 columns, take columns 2-5 positionally; otherwise raise, carrying
the observed header list. -/
def normalize_columns (df : Table) : Except (List String) Table :=
  match em_header df with
  | some em =>
    if df.headers.contains "Team Name" && df.headers.contains "Supply Cost in $" &&
        df.headers.contains "Outcome" then
      Except.ok ⟨internal_headers, df.rows.map fun r =>
        [selectCell df r "Team Name", selectCell df r "Supply Cost in $",
         selectCell df r "Outcome", selectCell df r em]⟩
    else if 5 ≤ df.headers.length then
      Except.ok ⟨internal_headers, df.rows.map fun r => (r.drop 1).take 4⟩
    else
      Except.error df.headers
  | none =>
    if 5 ≤ df.headers.length then
      Except.ok ⟨internal_headers, df.rows.map fun r => (r.drop 1).take 4⟩
    else
      Except.error df.headers

/-- `compute_score_k` (src/streamlit_app.py:57-73).  Lower is better; all
math is done in thousands of dollars. -/
def compute_score_k (cost_k : Rat) (outcome : String) (em_completed : String) : Rat :=
  let o := pyLower (pyStrip outcome)
  let penalty_k : Rat :=
    if o = "cracked egg" then 1000
    else if o = "broken egg" then 10000
    else 0
  let refund_k : Rat :=
    if pyLower (pyStrip em_completed) ∈ (["yes", "y", "true"] : List String) then 10 else 0
  cost_k + penalty_k - refund_k

/-- The affirmative vocabulary of the completion flag. -/
def em_affirmative : List String := ["yes", "y", "true"]

/-- The outcome penalty of the scorer, as a standalone reference function
(spec §4.3): none for the successful outcome, a mid-tier constant for the
partial failure, ten times that for the total failure, zero otherwise. -/
def penalty_k (outcome : String) : Rat :=
  if pyLower (pyStrip outcome) = "cracked egg" then 1000
  else if pyLower (pyStrip outcome) = "broken egg" then 10000
  else 0

/-- The completion refund of the scorer, as a standalone reference function
(spec §4.3): a fixed constant when the flag matches an affirmative value. -/
def refund_k (em_completed : String) : Rat :=
  if pyLower (pyStrip em_completed) ∈ em_affirmative then 10 else 0

/-- `outcome_badge` (src/streamlit_app.py:76-84): the display badge for an
outcome; an unrecognized outcome string passes through unchanged. -/
def outcome_badge (outcome : String) : String :=
  let o := pyLower (pyStrip outcome)
  if o = "unharmed egg" then "✅ CLEARED"
  else if o = "cracked egg" then "⚖️ LITIGATION"
  else if o = "broken egg" then "💸 F&F CLAIM"
  else outcome

/-- `esc_html` (src/streamlit_app.py:87-93): chained `str.replace` of the
three markup characters, ampersand first. -/
def esc_html (s : String) : String :=
  ⟨pyReplaceChar (pyReplaceChar (pyReplaceChar s.data '&' "&amp;".data) '<' "&lt;".data)
    '>' "&gt;".data⟩

/-- Numeric value of a list of decimal digit characters. -/
def digitsToNat (cs : List Char) : Nat :=
  cs.foldl (fun a c => a * 10 + (c.toNat - 48)) 0

/-- An unsigned decimal numeral: digits with an optional decimal point
(`"123"`, `"123.45"`, `"123."`, `".5"`). -/
def parseUnsigned (cs : List Char) : Option Rat :=
  match cs.splitOn '.' with
  | [w] =>
    if !w.isEmpty && w.all Char.isDigit then some (digitsToNat w : Rat) else none
  | [w, f] =>
    if (!w.isEmpty || !f.isEmpty) && w.all Char.isDigit && f.all Char.isDigit then
      some ((digitsToNat w : Rat) + (digitsToNat f : Rat) / (10 ^ f.length))
    else none
  | _ => none

/-- `pd.to_numeric(col, errors="coerce")` on one string value: surrounding
whitespace is tolerated, an optional sign precedes a decimal numeral.  A
value that fails to parse becomes `NaN` (here `none`), which the subsequent
`dropna` removes; in particular the text `"nan"` produced by stringifying a
missing cost yields `NaN` again.  Float specials such as infinities are out
of scope of the claims and are treated as parse failures. -/
def to_numeric (s : String) : Option Rat :=
  match (pyStrip s).data with
  | '-' :: rest => (parseUnsigned rest).map (fun q => -q)
  | '+' :: rest => parseUnsigned rest
  | t => parseUnsigned t

/-- A cleaned, typed row: the Submission of the spec data model. -/
structure Submission where
  team_name : String
  cost_k : Rat
  outcome : String
  em_completed : String
deriving DecidableEq, Repr

/-- Comma stripping plus numeric coercion applied to the cost column
(src/streamlit_app.py:279-280). -/
def parse_cost (c : Cell) : Option Rat :=
  to_numeric ⟨pyReplaceChar (cellToStr c).data ',' []⟩

/-- The cleaning block (src/streamlit_app.py:273-283) for one normalized row:
`team_name`, `outcome` and `em_completed` are stringified and stripped (so a
missing value becomes the text `"nan"` and is never `NaN` when `dropna`
runs); the cost is comma-stripped and coerced, and the row is dropped
exactly when that coercion yields `NaN`. -/
def cleanRow (r : List Cell) : Option Submission :=
  let team_name := pyStrip (cellToStr (r.getD 0 Cell.na))
  let outcome := pyStrip (cellToStr (r.getD 2 Cell.na))
  let em_completed := pyStrip (cellToStr (r.getD 3 Cell.na))
  match parse_cost (r.getD 1 Cell.na) with
  | some c => some ⟨team_name, c, outcome, em_completed⟩
  | none => none

/-- The cleaning block applied to all rows of the normalized table. -/
def cleanRows (rows : List (List Cell)) : List Submission :=
  rows.filterMap cleanRow

/-- The sort key of line 287: `(score_k, team_name)`. -/
def subKey (s : Submission) : Rat × String :=
  (compute_score_k s.cost_k s.outcome s.em_completed, s.team_name)

/-- Strict precedence under `(score ascending, team_name ascending)`. -/
def precedes (s t : Submission) : Prop :=
  (subKey s).1 < (subKey t).1 ∨ ((subKey s).1 = (subKey t).1 ∧ (subKey s).2 < (subKey t).2)

instance : DecidableRel precedes :=
  fun _ _ => inferInstanceAs (Decidable (_ ∨ _))

/-- The non-strict comparison the sort orders by. -/
def leSub (s t : Submission) : Prop := ¬ precedes t s

instance : DecidableRel leSub :=
  fun _ _ => inferInstanceAs (Decidable (¬ _))

/-- `data.sort_values(["score_k", "team_name"], ascending=[True, True])`
(src/streamlit_app.py:287), modelled as a sort producing a permutation
ordered by `leSub`. -/
def sort_values (l : List Submission) : List Submission :=
  List.insertionSort leSub l

/-- Line 288: the sorted rows paired with `rank = range(1, len(data) + 1)`. -/
def rankedEntries (l : List Submission) : List (Nat × Submission) :=
  List.enumFrom 1 (sort_values l)

/-- `PAGE_SIZE` (src/streamlit_app.py:22). -/
def PAGE_SIZE : Nat := 18

/-- The paginator outputs of lines 305-308. -/
structure PageInfo where
  page : Nat
  total_pages : Nat
  start : Nat
  stop : Nat
deriving DecidableEq, Repr

/-- Lines 305-308: `total_pages = max(1, ceil(n / P))`, `page = t % total_pages`,
`start = page * P`, `end = min(start + P, n)`.  In `Nat`, `ceil(n / P)` is
`(n + P - 1) / P`. -/
def paginate (n P t : Nat) : PageInfo :=
  let total_pages := max 1 ((n + P - 1) / P)
  let page := t % total_pages
  let start := page * P
  let stop := min (start + P) n
  ⟨page, total_pages, start, stop⟩

/-- Comma-grouping of a reversed digit list: a separator after every third
digit, counted from the right. -/
def groupRev : Nat → List Char → List Char
  | _, [] => []
  | k, c :: cs => if k = 3 then ',' :: c :: groupRev 1 cs else c :: groupRev (k + 1) cs

/-- Python `f"{x:,}"` for an integer. -/
def int_comma (x : Int) : String :=
  (if x < 0 then "-" else "") ++ ⟨(groupRev 0 (Nat.repr x.natAbs).data.reverse).reverse⟩

/-- Line 292: the score in thousands is scaled to dollars, rounded and
formatted with a currency symbol and grouping commas.  The half-way rounding
convention (`round`) is immaterial to every claim. -/
def score_display (score_k : Rat) : String :=
  "$" ++ int_comma (round (score_k * 1000))

/-- Character-wise HTML entity escape: the reference description of what
`esc_html` does to each character (spec §4.6). -/
def escChar (c : Char) : List Char :=
  if c = '&' then "&amp;".data
  else if c = '<' then "&lt;".data
  else if c = '>' then "&gt;".data
  else [c]

/-- One `<tr>` of `render_leaderboard_table` (src/streamlit_app.py:103-113):
the rank cell holds `int(r['Rank'])`, the three text cells go through
`esc_html`.  Layout whitespace of the template is elided. -/
def row_html (rank : Nat) (team score status : String) : String :=
  "<tr><td class=\"rank\">" ++ toString rank ++
  "</td><td class=\"team\">" ++ esc_html team ++
  "</td><td class=\"score\">" ++ esc_html score ++
  "</td><td class=\"status\">" ++ esc_html status ++ "</td></tr>"

/-- What one refresh tick of the script puts on screen. -/
inductive Render where
  | emptyState : Render
  | schemaError (headers : List String) : Render
  | table (rows : List (Nat × String × String × String)) : Render
deriving DecidableEq, Repr

/-- The module-level pipeline (src/streamlit_app.py:264-319) from the fetched
table and the tick counter to the rendered result: the `df.empty` early exit
(`st.info("No submissions yet."); st.stop()`), then normalize, clean, score,
sort/rank, paginate and build the view rows `(rank, team, score, status)`. -/
def run_app (df : Table) (refresh_count : Nat) : Render :=
  if df.rows.isEmpty then Render.emptyState
  else
    match normalize_columns df with
    | Except.error hs => Render.schemaError hs
    | Except.ok nd =>
      let data := cleanRows nd.rows
      let ranked := rankedEntries data
      let n := ranked.length
      let pg := paginate n PAGE_SIZE refresh_count
      let view := (ranked.drop pg.start).take (pg.stop - pg.start)
      Render.table (view.map fun p =>
        (p.1, (p.2).team_name,
         score_display (compute_score_k (p.2).cost_k (p.2).outcome (p.2).em_completed),
         outcome_badge (p.2).outcome))

/-- The canonical positional layout of the same data (spec §4.1 and §8
round-trip): an ignorable timestamp first, then the four semantic columns
in their fixed order, extracted from `df` by header name. -/
def canonical_headers : List String :=
  ["Timestamp", "Team Name", "Supply Cost in $", "Outcome", "EM Questions Completed"]

/-- Re-lay the data of `df` out in the canonical positional column order,
with `ts` as the (ignorable) timestamp cell. -/
def canonicalize (df : Table) (ts : Cell) : Table :=
  ⟨canonical_headers,
   df.rows.map fun r =>
     [ts, selectCell df r "Team Name", selectCell df r "Supply Cost in $",
      selectCell df r "Outcome", selectCell df r "EM Questions Completed"]⟩

/-- Spec-side (§4.1): the primary strategy applies when the three fixed
headers and one of the two EM aliases are all present. -/
def primary_ok (df : Table) : Bool :=
  (df.headers.contains "EM Questions Completed" || df.headers.contains "EM Question Completed") &&
  (df.headers.contains "Team Name" && df.headers.contains "Supply Cost in $" &&
    df.headers.contains "Outcome")

/-- Spec-side (§4.1): the by-name column selection of the primary strategy. -/
def primary_select (df : Table) : Table :=
  ⟨internal_headers, df.rows.map fun r =>
    [selectCell df r "Team Name", selectCell df r "Supply Cost in $",
     selectCell df r "Outcome", selectCell df r ((em_header df).getD "")]⟩

/-- Spec-side (§4.1): the fixed positional fallback, columns 2-5. -/
def positional_select (df : Table) : Table :=
  ⟨internal_headers, df.rows.map fun r => (r.drop 1).take 4⟩

/-- Spec-side (§4.1): the two-strategy resolver the normalizer is claimed to
implement — by-name match first, positional fallback second, otherwise a
schema-mismatch error carrying the observed header list, never any further
guessing. -/
def spec_two_strategy (df : Table) : Except (List String) Table :=
  if primary_ok df then Except.ok (primary_select df)
  else if 5 ≤ df.headers.length then Except.ok (positional_select df)
  else Except.error df.headers

/-- The recognized outcome vocabulary in canonical (stripped, lowered) form. -/
def outcome_vocab : List String := ["unharmed egg", "cracked egg", "broken egg"]

/-- C1: the scorer is the reference function
`score(cost, outcome, em_completed) = cost + penalty(outcome) - refund(em_completed)`:
the penalty is 0 for the successful outcome, the mid-tier constant 1000 (in $K)
for the partial-failure outcome "Cracked Egg", exactly 10 times that for the
total-failure outcome "Broken Egg", and 0 for unrecognized outcome strings;
the refund is the fixed constant 10 when `em_completed` matches an affirmative
value and 0 otherwise.  For cost 500 with the total-failure outcome the score
is 10490 when `em_completed` is affirmative and 10500 when it is not. -/
theorem scorer_is_reference :
    (∀ (c : Rat) (o e : String), compute_score_k c o e = c + penalty_k o - refund_k e) ∧
    penalty_k "Unharmed Egg" = 0 ∧
    penalty_k "Cracked Egg" = 1000 ∧
    penalty_k "Broken Egg" = 10000 ∧
    penalty_k "Broken Egg" = 10 * penalty_k "Cracked Egg" ∧
    (∀ o : String, pyLower (pyStrip o) ∉ outcome_vocab → penalty_k o = 0) ∧
    (∀ e : String, pyLower (pyStrip e) ∈ em_affirmative → refund_k e = 10) ∧
    (∀ e : String, pyLower (pyStrip e) ∉ em_affirmative → refund_k e = 0) ∧
    compute_score_k 500 "Broken Egg" "Yes" = 10490 ∧
    compute_score_k 500 "Broken Egg" "No" = 10500 := by
  refine ⟨fun c o e => rfl, ?_, ?_, ?_, ?_, ?_, ?_, ?_, ?_, ?_⟩
  · simp only [penalty_k]
    rw [if_neg (by decide), if_neg (by decide)]
  · simp only [penalty_k]
    rw [if_pos (by decide)]
  · simp only [penalty_k]
    rw [if_neg (by decide), if_pos (by decide)]
  · simp only [penalty_k]
    rw [if_neg (by decide), if_pos (by decide), if_pos (by decide)]
    norm_num
  · intro o ho
    rw [outcome_vocab, List.mem_cons, List.mem_cons, List.mem_singleton] at ho
    push_neg at ho
    obtain ⟨-, h2, h3⟩ := ho
    simp only [penalty_k, if_neg h2, if_neg h3]
  · intro e he
    simp only [refund_k, if_pos he]
  · intro e he
    simp only [refund_k, if_neg he]
  · simp only [compute_score_k]
    rw [if_neg (by decide), if_pos (by decide), if_pos (by decide)]
    norm_num
  · simp only [compute_score_k]
    rw [if_neg (by decide), if_pos (by decide), if_neg (by decide)]
    norm_num

/-- Witness for C1: the hypotheses of the conditional conjuncts discharged at
concrete inputs. -/
theorem scorer_is_reference_witness :
    penalty_k "Dropped Egg" = 0 ∧ refund_k "YES " = 10 ∧ refund_k "No" = 0 :=
  ⟨scorer_is_reference.2.2.2.2.2.1 "Dropped Egg" (by decide),
   scorer_is_reference.2.2.2.2.2.2.1 "YES " (by decide),
   scorer_is_reference.2.2.2.2.2.2.2.1 "No" (by decide)⟩

/-- C8 counterexample: classification is not spacing-insensitive.  The two
outcome strings "Cracked Egg" and "Cracked  Egg" differ only in internal
spacing (their non-whitespace characters agree), yet the first is classified
as the partial failure (penalty 1000, litigation badge) and the second as an
unrecognized outcome (penalty 0, badge passing the raw text through). -/
theorem outcome_spacing_not_insensitive :
    penalty_k "Cracked Egg" = 1000 ∧
    penalty_k "Cracked  Egg" = 0 ∧
    "Cracked Egg".data.filter (fun c => !c.isWhitespace) =
      "Cracked  Egg".data.filter (fun c => !c.isWhitespace) ∧
    outcome_badge "Cracked Egg" = "⚖️ LITIGATION" ∧
    outcome_badge "Cracked  Egg" = "Cracked  Egg" := by
  refine ⟨?_, ?_, by decide, ?_, ?_⟩
  · simp only [penalty_k]
    rw [if_pos (by decide)]
  · simp only [penalty_k]
    rw [if_neg (by decide), if_neg (by decide)]
  · simp only [outcome_badge]
    rw [if_neg (by decide), if_pos (by decide)]
  · simp only [outcome_badge]
    rw [if_neg (by decide), if_neg (by decide), if_neg (by decide)]

/-- C8 (amended): outcome classification is case-insensitive and insensitive
to leading/trailing whitespace (two outcome strings with the same stripped,
lowered form are classified alike, and alike-badged when recognized), but not
to internal spacing; any outcome string matching none of the recognized
vocabulary incurs zero penalty in the score and its status badge passes the
raw outcome text through unchanged. -/
theorem outcome_classification :
    (∀ s t : String, pyLower (pyStrip s) = pyLower (pyStrip t) → penalty_k s = penalty_k t) ∧
    (∀ s t : String, pyLower (pyStrip s) = pyLower (pyStrip t) →
      pyLower (pyStrip s) ∈ outcome_vocab → outcome_badge s = outcome_badge t) ∧
    (∀ s : String, pyLower (pyStrip s) ∉ outcome_vocab →
      penalty_k s = 0 ∧ outcome_badge s = s) ∧
    (∀ (c : Rat) (s e : String), compute_score_k c s e = c + penalty_k s - refund_k e) := by
  refine ⟨?_, ?_, ?_, fun c s e => rfl⟩
  · intro s t h
    simp only [penalty_k, h]
  · intro s t h hm
    rw [outcome_vocab, List.mem_cons, List.mem_cons, List.mem_singleton] at hm
    simp only [outcome_badge, h]
    rcases hm with h1 | h2 | h3
    · rw [h] at h1
      rw [if_pos h1, if_pos h1]
    · rw [h] at h2
      have hne : pyLower (pyStrip t) ≠ "unharmed egg" := by rw [h2]; decide
      rw [if_neg hne, if_neg hne, if_pos h2, if_pos h2]
    · rw [h] at h3
      have hne1 : pyLower (pyStrip t) ≠ "unharmed egg" := by rw [h3]; decide
      have hne2 : pyLower (pyStrip t) ≠ "cracked egg" := by rw [h3]; decide
      rw [if_neg hne1, if_neg hne1, if_neg hne2, if_neg hne2, if_pos h3, if_pos h3]
  · intro s hs
    rw [outcome_vocab, List.mem_cons, List.mem_cons, List.mem_singleton] at hs
    push_neg at hs
    obtain ⟨h1, h2, h3⟩ := hs
    constructor
    · simp only [penalty_k, if_neg h2, if_neg h3]
    · simp only [outcome_badge]
      rw [if_neg h1, if_neg h2, if_neg h3]

/-- Witness for C8 (amended) at concrete inputs: a shouted, padded spelling of
the partial-failure outcome classifies like the canonical one, and an
unrecognized outcome gets zero penalty with a pass-through badge. -/
theorem outcome_classification_witness :
    penalty_k "CRACKED EGG  " = penalty_k "cracked egg" ∧
    outcome_badge "CRACKED EGG  " = outcome_badge "cracked egg" ∧
    penalty_k "Scrambled Egg" = 0 ∧
    outcome_badge "Scrambled Egg" = "Scrambled Egg" :=
  ⟨outcome_classification.1 "CRACKED EGG  " "cracked egg" rfl,
   outcome_classification.2.1 "CRACKED EGG  " "cracked egg" rfl (by decide),
   (outcome_classification.2.2.1 "Scrambled Egg" (by decide)).1,
   (outcome_classification.2.2.1 "Scrambled Egg" (by decide)).2⟩

/-- `pyReplaceChar` distributes over list append. -/
theorem pyReplaceChar_append (l1 l2 : List Char) (p : Char) (r : List Char) :
    pyReplaceChar (l1 ++ l2) p r = pyReplaceChar l1 p r ++ pyReplaceChar l2 p r := by
  induction l1 with
  | nil => rfl
  | cons c cs ih => simp [pyReplaceChar, ih]

/-- On a single character, the three chained replacements of `esc_html` act
as the character-wise escape `escChar`: the entities inserted by an earlier
replacement are never touched by a later one. -/
theorem escChar_step (c : Char) :
    pyReplaceChar (pyReplaceChar (pyReplaceChar [c] '&' "&amp;".data) '<' "&lt;".data)
      '>' "&gt;".data = escChar c := by
  by_cases h1 : c = '&'
  · subst h1; rfl
  by_cases h2 : c = '<'
  · subst h2; rfl
  by_cases h3 : c = '>'
  · subst h3; rfl
  simp [pyReplaceChar, escChar, h1, h2, h3]

/-- The character-wise escape emits no raw markup characters. -/
theorem escChar_no_markup (c : Char) : '<' ∉ escChar c ∧ '>' ∉ escChar c := by
  by_cases h1 : c = '&'
  · subst h1; decide
  by_cases h2 : c = '<'
  · subst h2; decide
  by_cases h3 : c = '>'
  · subst h3; decide
  simp only [escChar, if_neg h1, if_neg h2, if_neg h3, List.mem_singleton]
  exact ⟨fun h => h2 h.symm, fun h => h3 h.symm⟩

/-- A character of an `escChar`-escaped text is a character of the escape of
one of the source characters. -/
theorem mem_escChar_foldr (l : List Char) (c : Char)
    (hc : c ∈ l.foldr (fun d acc => escChar d ++ acc) []) : ∃ d ∈ l, c ∈ escChar d := by
  induction l with
  | nil => cases hc
  | cons d ds ih =>
    rcases List.mem_append.mp hc with h | h
    · exact ⟨d, List.mem_cons_self d ds, h⟩
    · obtain ⟨d', hd', hc'⟩ := ih h
      exact ⟨d', List.mem_cons_of_mem d hd', hc'⟩

/-- The escaped form of any string contains no `'<'` character. -/
theorem esc_html_count_lt (s : String) : (esc_html s).data.count '<' = 0 := by
  rw [List.count_eq_zero]
  intro hmem
  have : (esc_html s).data = s.data.foldr (fun c acc => escChar c ++ acc) [] := by
    show pyReplaceChar (pyReplaceChar (pyReplaceChar s.data '&' "&amp;".data) '<' "&lt;".data)
      '>' "&gt;".data = _
    induction s.data with
    | nil => rfl
    | cons c cs ih =>
      rw [show (c :: cs) = [c] ++ cs from rfl, pyReplaceChar_append, pyReplaceChar_append,
        pyReplaceChar_append, escChar_step, ih]
      rfl
  rw [this] at hmem
  obtain ⟨d, -, hd⟩ := mem_escChar_foldr _ _ hmem
  exact (escChar_no_markup d).1 hd

/-- The escaped form of any string contains no `'>'` character. -/
theorem esc_html_count_gt (s : String) : (esc_html s).data.count '>' = 0 := by
  rw [List.count_eq_zero]
  intro hmem
  have : (esc_html s).data = s.data.foldr (fun c acc => escChar c ++ acc) [] := by
    show pyReplaceChar (pyReplaceChar (pyReplaceChar s.data '&' "&amp;".data) '<' "&lt;".data)
      '>' "&gt;".data = _
    induction s.data with
    | nil => rfl
    | cons c cs ih =>
      rw [show (c :: cs) = [c] ++ cs from rfl, pyReplaceChar_append, pyReplaceChar_append,
        pyReplaceChar_append, escChar_step, ih]
      rfl
  rw [this] at hmem
  obtain ⟨d, -, hd⟩ := mem_escChar_foldr _ _ hmem
  exact (escChar_no_markup d).2 hd

/-- C10: the presenter escapes all text content of rendered table cells.
`esc_html` replaces every `&`, `<` and `>` of its input by the corresponding
HTML entity (it acts character-wise as `escChar`); its output never contains
a raw `<` or `>`; and in a rendered table row the team, score and status
texts (the untrusted inputs) cannot change the number of `<` or `>`
characters of the row markup — no input string introduces raw markup. -/
theorem presenter_escapes_markup :
    (∀ s : String, (esc_html s).data = s.data.foldr (fun c acc => escChar c ++ acc) []) ∧
    (∀ (s : String) (c : Char), c ∈ (esc_html s).data → c ≠ '<' ∧ c ≠ '>') ∧
    (∀ (rank : Nat) (team score status : String),
      (row_html rank team score status).data.count '<' =
        (row_html rank "" "" "").data.count '<' ∧
      (row_html rank team score status).data.count '>' =
        (row_html rank "" "" "").data.count '>') := by
  have hfold : ∀ s : String,
      (esc_html s).data = s.data.foldr (fun c acc => escChar c ++ acc) [] := by
    intro s
    show pyReplaceChar (pyReplaceChar (pyReplaceChar s.data '&' "&amp;".data) '<' "&lt;".data)
      '>' "&gt;".data = _
    induction s.data with
    | nil => rfl
    | cons c cs ih =>
      rw [show (c :: cs) = [c] ++ cs from rfl, pyReplaceChar_append, pyReplaceChar_append,
        pyReplaceChar_append, escChar_step, ih]
      rfl
  refine ⟨hfold, ?_, ?_⟩
  · intro s c hc
    rw [hfold s] at hc
    obtain ⟨d, -, hd⟩ := mem_escChar_foldr _ _ hc
    have := escChar_no_markup d
    exact ⟨fun h => this.1 (h ▸ hd), fun h => this.2 (h ▸ hd)⟩
  · intro rank team score status
    constructor
    · simp only [row_html, String.data_append, List.count_append, esc_html_count_lt]
    · simp only [row_html, String.data_append, List.count_append, esc_html_count_gt]

/-- Witness for C10 at concrete inputs: a string carrying all three markup
characters is rewritten to its entity form, and an escaped character is not
raw markup. -/
theorem presenter_escapes_markup_witness :
    (esc_html "a<b&c>d").data = "a&lt;b&amp;c&gt;d".data ∧
    ('&' : Char) ≠ '<' ∧ ('&' : Char) ≠ '>' :=
  ⟨(presenter_escapes_markup.1 "a<b&c>d").trans (by decide),
   (presenter_escapes_markup.2.1 "a&b" '&' (by decide)).1,
   (presenter_escapes_markup.2.1 "a&b" '&' (by decide)).2⟩

/-- C7: after cleaning, a row is excluded exactly when its cost cell fails
numeric parsing (comma stripping, stringification, numeric coercion); and
because `team_name` and `outcome` are string-coerced before the
missing-value filter runs, a row whose team_name or outcome cell is absent
is retained as a Submission whose corresponding field is the literal text
`"nan"`, not dropped. -/
theorem cleaner_drops_only_unparsable_cost :
    (∀ r : List Cell, (cleanRow r).isSome = (parse_cost (r.getD 1 Cell.na)).isSome) ∧
    (∀ (costCell emCell : Cell) (v : Rat), parse_cost costCell = some v →
      cleanRow [Cell.na, costCell, Cell.na, emCell] =
        some ⟨"nan", v, "nan", pyStrip (cellToStr emCell)⟩) := by
  constructor
  · intro r
    cases h : parse_cost (r.getD 1 Cell.na) with
    | none =>
      simp only [cleanRow, h]
      rfl
    | some v => simp only [cleanRow, h, Option.isSome_some]
  · intro costCell emCell v h
    simp only [cleanRow, List.getD_cons_zero, List.getD_cons_succ]
    rw [h]
    rfl

/-- Witness for C7: a row whose team and outcome cells are missing but whose
cost cell parses (after comma stripping) is kept, with the literal text
`"nan"` in the two coerced fields. -/
theorem cleaner_drops_only_unparsable_cost_witness :
    cleanRow [Cell.na, Cell.str "1,500", Cell.na, Cell.str "Yes"] =
      some ⟨"nan", 1500, "nan", "Yes"⟩ :=
  cleaner_drops_only_unparsable_cost.2 (Cell.str "1,500") (Cell.str "Yes") 1500 rfl

/-- C6, evaluated at the failing input: a normalized row whose team_name and
outcome cells are both missing, with a parsable cost, is NOT dropped by the
cleaning block — it survives as a Submission whose team_name and outcome are
the literal text `"nan"` — contradicting the claimed invariant that every
output Submission has team_name and outcome present. -/
theorem cleaner_keeps_missing_team_and_outcome :
    cleanRows [[Cell.na, Cell.str "500", Cell.na, Cell.str "No"]] =
      [⟨"nan", 500, "nan", "No"⟩] ∧
    cleanRows [[Cell.na, Cell.str "500", Cell.na, Cell.str "No"]] ≠ [] := by
  have hA : cleanRows [[Cell.na, Cell.str "500", Cell.na, Cell.str "No"]] =
      [⟨"nan", 500, "nan", "No"⟩] := rfl
  refine ⟨hA, ?_⟩
  rw [hA]
  exact List.cons_ne_nil _ _

/-- C3: the paginator computes `total_pages = max(1, ceil(n / P))` (the least
positive page count whose pages hold all `n` entries), `page = t mod
total_pages`, `start = page * P`, `end = min(start + P, n)`; consequently
`0 ≤ start ≤ end ≤ n` and `end - start ≤ P`, the slices for
`t = 0 .. total_pages - 1` cover every entry exactly once with no overlap,
and when `n < P` there is a single page with index 0. -/
theorem paginator_invariants (n P t : Nat) (hP : 0 < P) :
    (paginate n P t).page = t % (paginate n P t).total_pages ∧
    (paginate n P t).total_pages = max 1 ((n + P - 1) / P) ∧
    n ≤ (paginate n P t).total_pages * P ∧
    (∀ m : Nat, 0 < m → n ≤ m * P → (paginate n P t).total_pages ≤ m) ∧
    (paginate n P t).start ≤ (paginate n P t).stop ∧
    (paginate n P t).stop ≤ n ∧
    (paginate n P t).stop - (paginate n P t).start ≤ P ∧
    (∀ i : Nat, i < n → ∃! u : Nat, u < (paginate n P t).total_pages ∧
      (paginate n P u).start ≤ i ∧ i < (paginate n P u).stop) ∧
    (n < P → (paginate n P t).total_pages = 1 ∧ (paginate n P t).page = 0) := by
  have htp : ∀ u : Nat, (paginate n P u).total_pages = max 1 ((n + P - 1) / P) :=
    fun u => rfl
  have hpage : ∀ u : Nat, (paginate n P u).page = u % max 1 ((n + P - 1) / P) :=
    fun u => rfl
  have hstart : ∀ u : Nat, (paginate n P u).start = (u % max 1 ((n + P - 1) / P)) * P :=
    fun u => rfl
  have hstop : ∀ u : Nat,
      (paginate n P u).stop = min ((u % max 1 ((n + P - 1) / P)) * P + P) n :=
    fun u => rfl
  have hk0 : n = 0 → max 1 ((n + P - 1) / P) = 1 := by
    intro hn
    subst hn
    have hz : (0 + P - 1) / P = 0 := Nat.div_eq_of_lt (by omega)
    rw [hz]
    exact max_eq_left (Nat.zero_le 1)
  have hkeq : n ≠ 0 → max 1 ((n + P - 1) / P) = (n - 1) / P + 1 := by
    intro hn
    have h1 : n + P - 1 = (n - 1) + P := by omega
    rw [h1, Nat.add_div_right _ hP]
    exact max_eq_right (Nat.succ_le_succ (Nat.zero_le _))
  have hbound : ∀ u : Nat, (u % max 1 ((n + P - 1) / P)) * P ≤ n := by
    intro u
    rcases Nat.eq_zero_or_pos n with hn | hn
    · subst hn
      rw [hk0 rfl, Nat.mod_one]
      omega
    · rw [hkeq (by omega)]
      have h1 : u % ((n - 1) / P + 1) ≤ (n - 1) / P :=
        Nat.lt_succ_iff.mp (Nat.mod_lt u (Nat.succ_pos _))
      calc (u % ((n - 1) / P + 1)) * P ≤ ((n - 1) / P) * P := mul_le_mul_right' h1 P
        _ ≤ n - 1 := Nat.div_mul_le_self _ _
        _ ≤ n := by omega
  have hge : n ≤ max 1 ((n + P - 1) / P) * P := by
    rcases Nat.eq_zero_or_pos n with hn | hn
    · subst hn
      exact Nat.zero_le _
    · rw [hkeq (by omega)]
      have h3 := Nat.div_add_mod (n - 1) P
      have h4 := Nat.mod_lt (n - 1) hP
      have h5 : ((n - 1) / P + 1) * P = P * ((n - 1) / P) + P := by ring
      omega
  have hleast : ∀ m : Nat, 0 < m → n ≤ m * P → max 1 ((n + P - 1) / P) ≤ m := by
    intro m hm hnm
    rcases Nat.eq_zero_or_pos n with hn | hn
    · rw [hk0 hn]
      omega
    · rw [hkeq (by omega)]
      have h2 : (n - 1) / P < m := by
        rw [Nat.div_lt_iff_lt_mul hP]
        omega
      omega
  refine ⟨hpage t, htp t, ?_, ?_, ?_, ?_, ?_, ?_, ?_⟩
  · rw [htp t]
    exact hge
  · intro m hm hnm
    rw [htp t]
    exact hleast m hm hnm
  · rw [hstart t, hstop t]
    exact le_min (Nat.le_add_right _ _) (hbound t)
  · rw [hstop t]
    exact min_le_right _ _
  · rw [hstart t, hstop t]
    have h := min_le_left ((t % max 1 ((n + P - 1) / P)) * P + P) n
    omega
  · intro i hi
    have hn : (0 : Nat) < n := by omega
    have hk := hkeq (by omega)
    have hdd : i / P ≤ (n - 1) / P := Nat.div_le_div_right (by omega)
    have hlt : i / P < max 1 ((n + P - 1) / P) := by
      rw [hk]
      exact Nat.lt_succ_of_le hdd
    refine ⟨i / P, ⟨⟨?_, ?_, ?_⟩, ?_⟩⟩
    · rw [htp t]
      exact hlt
    · rw [hstart, Nat.mod_eq_of_lt hlt]
      exact Nat.div_mul_le_self i P
    · rw [hstop, Nat.mod_eq_of_lt hlt]
      have h3 := Nat.div_add_mod i P
      have h4 := Nat.mod_lt i hP
      have h5 : (i / P) * P = P * (i / P) := Nat.mul_comm _ _
      exact lt_min (by omega) hi
    · intro u hu
      obtain ⟨hu1, hu2, hu3⟩ := hu
      rw [htp t] at hu1
      rw [hstart, Nat.mod_eq_of_lt hu1] at hu2
      rw [hstop, Nat.mod_eq_of_lt hu1] at hu3
      have hu3' : i < u * P + P := lt_of_lt_of_le hu3 (min_le_left _ _)
      have hle : u ≤ i / P := (Nat.le_div_iff_mul_le hP).mpr hu2
      have hgt : i / P < u + 1 := by
        rw [Nat.div_lt_iff_lt_mul hP]
        calc i < u * P + P := hu3'
          _ = (u + 1) * P := by ring
      omega
  · intro hnP
    have h1 : (n + P - 1) / P ≤ 1 := by
      have h0 := (Nat.div_lt_iff_lt_mul hP).mpr (show n + P - 1 < 2 * P by omega)
      omega
    have h2 : max 1 ((n + P - 1) / P) = 1 :=
      le_antisymm (max_le (le_refl 1) h1) (le_max_left 1 _)
    constructor
    · rw [htp t]
      exact h2
    · rw [hpage t, h2, Nat.mod_one]

/-- Witness for C3 at a concrete instance (40 entries, the program's page
size 18, tick 5). -/
theorem paginator_invariants_witness :
    (0 : Nat) < 18 ∧ (paginate 40 18 5).start ≤ (paginate 40 18 5).stop ∧
      (paginate 40 18 5).stop ≤ 40 :=
  ⟨by decide, (paginator_invariants 40 18 5 (by decide)).2.2.2.2.1,
    (paginator_invariants 40 18 5 (by decide)).2.2.2.2.2.1⟩

/-- When the primary (by-name) strategy applies — some EM alias resolves and
the three fixed headers are present — `normalize_columns` selects the four
columns by header name, in any column position. -/
theorem normalize_columns_primary (df : Table) (em : String)
    (hem : em_header df = some em)
    (h1 : df.headers.contains "Team Name" = true)
    (h2 : df.headers.contains "Supply Cost in $" = true)
    (h3 : df.headers.contains "Outcome" = true) :
    normalize_columns df = Except.ok ⟨internal_headers, df.rows.map fun r =>
      [selectCell df r "Team Name", selectCell df r "Supply Cost in $",
       selectCell df r "Outcome", selectCell df r em]⟩ := by
  unfold normalize_columns
  rw [hem, h1, h2, h3]
  rfl

/-- C4: round-trip of the column normalizer.  If a table's header row carries
the exact expected header names — in any column order — then normalizing it
gives exactly the same result as normalizing the same data laid out in the
canonical positional order (an ignorable timestamp first, then team name,
cost, outcome and the completion flag in columns 2-5). -/
theorem normalize_round_trip (df : Table) (ts : Cell)
    (h1 : df.headers.contains "Team Name" = true)
    (h2 : df.headers.contains "Supply Cost in $" = true)
    (h3 : df.headers.contains "Outcome" = true)
    (h4 : df.headers.contains "EM Questions Completed" = true) :
    normalize_columns (canonicalize df ts) = normalize_columns df := by
  have hemdf : em_header df = some "EM Questions Completed" := by
    unfold em_header
    rw [h4]
    rfl
  rw [normalize_columns_primary df "EM Questions Completed" hemdf h1 h2 h3,
    normalize_columns_primary (canonicalize df ts) "EM Questions Completed" rfl rfl rfl rfl]
  congr 1
  simp only [canonicalize, List.map_map]
  rfl

/-- Witness for C4: a four-column table with the expected headers in a
scrambled order (no timestamp column at all) normalizes identically to its
canonical five-column positional layout. -/
theorem normalize_round_trip_witness :
    normalize_columns
      (canonicalize
        ⟨["Outcome", "Team Name", "EM Questions Completed", "Supply Cost in $"],
         [[Cell.str "Unharmed Egg", Cell.str "Alpha", Cell.str "Yes", Cell.str "500"]]⟩
        (Cell.str "9/1/2025 10:00")) =
    normalize_columns
      ⟨["Outcome", "Team Name", "EM Questions Completed", "Supply Cost in $"],
       [[Cell.str "Unharmed Egg", Cell.str "Alpha", Cell.str "Yes", Cell.str "500"]]⟩ :=
  normalize_round_trip
    ⟨["Outcome", "Team Name", "EM Questions Completed", "Supply Cost in $"],
     [[Cell.str "Unharmed Egg", Cell.str "Alpha", Cell.str "Yes", Cell.str "500"]]⟩
    (Cell.str "9/1/2025 10:00") rfl rfl rfl rfl

/-- C5: the normalizer is exactly the spec's two-strategy resolver: primary
exact/alias header match (the alias set of the completion-flag column being
exactly its plural and singular spellings), then the fixed positional
fallback when the table has at least 5 columns, and otherwise a
schema-mismatch error that carries the observed header list — never any
further guessing; moreover every error it ever signals carries the observed
header list. -/
theorem normalize_two_strategies (df : Table) :
    normalize_columns df = spec_two_strategy df ∧
    (∀ hs : List String, normalize_columns df = Except.error hs → hs = df.headers) := by
  have main : normalize_columns df = spec_two_strategy df := by
    cases hc1 : df.headers.contains "EM Questions Completed" with
    | true =>
      simp only [normalize_columns, spec_two_strategy, em_header, primary_ok, primary_select,
        positional_select, hc1]
      rfl
    | false =>
      cases hc2 : df.headers.contains "EM Question Completed" with
      | true =>
        simp only [normalize_columns, spec_two_strategy, em_header, primary_ok, primary_select,
          positional_select, hc1, hc2]
        rfl
      | false =>
        simp only [normalize_columns, spec_two_strategy, em_header, primary_ok, primary_select,
          positional_select, hc1, hc2]
        rfl
  refine ⟨main, ?_⟩
  intro hs h
  rw [main] at h
  unfold spec_two_strategy at h
  split_ifs at h
  all_goals first
  | exact Except.noConfusion h
  | (injection h with h2; exact h2.symm)

/-- Witness for C5: at a one-column table neither strategy applies, and the
signalled error carries the observed header list. -/
theorem normalize_two_strategies_witness :
    normalize_columns ⟨["A"], []⟩ = spec_two_strategy ⟨["A"], []⟩ ∧
    (["A"] : List String) = (Table.mk ["A"] []).headers :=
  ⟨(normalize_two_strategies ⟨["A"], []⟩).1,
   (normalize_two_strategies ⟨["A"], []⟩).2 ["A"] rfl⟩

/-- Strict precedence is irreflexive. -/
theorem precedes_irrefl (s : Submission) : ¬ precedes s s := by
  rintro (h | ⟨-, h⟩) <;> exact lt_irrefl _ h

/-- Strict precedence is asymmetric. -/
theorem precedes_asymm {s t : Submission} (h : precedes s t) : ¬ precedes t s := by
  intro h2
  rcases h with h | ⟨he, hn⟩ <;> rcases h2 with h2 | ⟨he2, hn2⟩
  · exact lt_irrefl _ (lt_trans h h2)
  · rw [he2] at h
    exact lt_irrefl _ h
  · rw [he] at h2
    exact lt_irrefl _ h2
  · exact lt_irrefl _ (lt_trans hn hn2)

/-- Two Submissions with different sort keys are comparable. -/
theorem precedes_total_of_ne {s t : Submission} (h : subKey s ≠ subKey t) :
    precedes s t ∨ precedes t s := by
  rcases lt_trichotomy (subKey s).1 (subKey t).1 with h1 | h1 | h1
  · exact Or.inl (Or.inl h1)
  · rcases lt_trichotomy (subKey s).2 (subKey t).2 with h2 | h2 | h2
    · exact Or.inl (Or.inr ⟨h1, h2⟩)
    · exact absurd (Prod.ext_iff.mpr ⟨h1, h2⟩) h
    · exact Or.inr (Or.inr ⟨h1.symm, h2⟩)
  · exact Or.inr (Or.inl h1)

/-- The non-strict comparison is transitive. -/
theorem leSub_trans_aux {a b c : Submission} (h1 : ¬ precedes b a) (h2 : ¬ precedes c b) :
    ¬ precedes c a := by
  unfold precedes at h1 h2 ⊢
  push_neg at h1 h2
  rintro (hlt | ⟨heq, hnlt⟩)
  · exact absurd hlt (not_lt.mpr (le_trans h1.1 h2.1))
  · have hsb : (subKey b).1 = (subKey a).1 := le_antisymm (heq ▸ h2.1) h1.1
    have hna : (subKey a).2 ≤ (subKey b).2 := h1.2 hsb
    have hnb : (subKey b).2 ≤ (subKey c).2 := h2.2 (by rw [heq, hsb])
    exact absurd (lt_of_lt_of_le hnlt (le_trans hna hnb)) (lt_irrefl _)

instance : IsTrans Submission leSub :=
  ⟨fun _ _ _ hab hbc => leSub_trans_aux hab hbc⟩

instance : IsTotal Submission leSub :=
  ⟨fun s t => by
    by_cases h : precedes t s
    · exact Or.inr (precedes_asymm h)
    · exact Or.inl h⟩

/-- On inputs with pairwise-distinct sort keys, the sorted list is strictly
increasing under `precedes`. -/
theorem sorted_pairwise_precedes (l : List Submission)
    (hkeys : l.Pairwise fun s t => subKey s ≠ subKey t) :
    (sort_values l).Pairwise precedes := by
  have hs : (sort_values l).Pairwise leSub := List.sorted_insertionSort leSub l
  have hperm : (sort_values l).Perm l := List.perm_insertionSort leSub l
  have hk : (sort_values l).Pairwise fun s t => subKey s ≠ subKey t :=
    (List.Perm.pairwise_iff (fun h => Ne.symm h) hperm).mpr hkeys
  exact (hs.and hk).imp fun hab => (precedes_total_of_ne hab.2).resolve_right hab.1

/-- In a list strictly increasing under `precedes`, the number of elements
strictly preceding the element at position `i` is exactly `i`. -/
theorem countP_precedes_of_pairwise :
    ∀ (l : List Submission), l.Pairwise precedes →
      ∀ (i : Nat) (h : i < l.length), l.countP (fun x => decide (precedes x l[i])) = i := by
  intro l
  induction l with
  | nil =>
    intro _ i h
    exact absurd h (Nat.not_lt_zero i)
  | cons a as ih =>
    intro hl i h
    rw [List.pairwise_cons] at hl
    obtain ⟨ha, has⟩ := hl
    cases i with
    | zero =>
      simp only [List.getElem_cons_zero]
      rw [List.countP_cons]
      have h1 : as.countP (fun x => decide (precedes x a)) = 0 := by
        rw [List.countP_eq_zero]
        intro y hy
        simp only [decide_eq_true_eq]
        exact precedes_asymm (ha y hy)
      simp [h1, precedes_irrefl a]
    | succ j =>
      simp only [List.getElem_cons_succ]
      rw [List.countP_cons]
      have hj : j < as.length := by simpa using h
      have h2 : (decide (precedes a as[j]) : Bool) = true := by
        simp only [decide_eq_true_eq]
        exact ha _ (List.getElem_mem hj)
      rw [ih has j hj, h2]
      simp [Nat.add_comm]

/-- C2 (amended): the ranker orders Submissions by `(score ascending,
team_name ascending)`; on any two Submissions with distinct `(score,
team_name)` keys exactly one strictly precedes the other, and on a list with
pairwise-distinct keys the code's ranking is a permutation of the input
carrying the dense 1-based ranks `1..n` with no gaps or repeats, where each
entry's rank equals `1 +` the number of entries strictly ordered before it.
(When two distinct Submissions share both score and team name, neither
precedes the other; they still get distinct consecutive ranks, in an
order the sort does not specify.) -/
theorem ranker_dense_on_distinct_keys (l : List Submission)
    (hkeys : l.Pairwise fun s t => subKey s ≠ subKey t) :
    ((rankedEntries l).map Prod.snd).Perm l ∧
    (rankedEntries l).map Prod.fst = List.range' 1 l.length ∧
    (∀ (i : Nat) (h : i < (rankedEntries l).length),
      ((rankedEntries l)[i]).1 =
        1 + l.countP fun x => decide (precedes x ((rankedEntries l)[i]).2)) ∧
    (∀ s t : Submission, subKey s ≠ subKey t → (precedes s t ↔ ¬ precedes t s)) := by
  have hperm : (sort_values l).Perm l := List.perm_insertionSort leSub l
  have hpair := sorted_pairwise_precedes l hkeys
  refine ⟨?_, ?_, ?_, ?_⟩
  · rw [rankedEntries, List.enumFrom_map_snd]
    exact hperm
  · rw [rankedEntries, List.enumFrom_map_fst, hperm.length_eq]
  · intro i h
    have hlen : i < (sort_values l).length := by simpa [rankedEntries] using h
    simp only [rankedEntries, List.getElem_enumFrom]
    rw [← hperm.countP_eq, countP_precedes_of_pairwise (sort_values l) hpair i hlen]
  · intro s t hne
    constructor
    · exact fun hp => precedes_asymm hp
    · intro hnp
      exact (precedes_total_of_ne hne).resolve_right hnp

/-- C2 counterexample: the ordering is not total on distinct Submissions,
and the rank formula fails on ties.  The two distinct Submissions
`("Alpha", 500, "Unharmed Egg", "No")` and `("Alpha", 510, "Unharmed Egg",
"Yes")` both score 500 and share the team name, so neither strictly precedes
the other; ranking them assigns ranks 1 and 2, yet each has 0 entries
strictly ordered before it, so the entry ranked 2 violates
`rank = 1 + number strictly preceding`. -/
theorem ranker_not_total_on_ties :
    Submission.mk "Alpha" 500 "Unharmed Egg" "No" ≠
      Submission.mk "Alpha" 510 "Unharmed Egg" "Yes" ∧
    ¬ precedes (Submission.mk "Alpha" 500 "Unharmed Egg" "No")
      (Submission.mk "Alpha" 510 "Unharmed Egg" "Yes") ∧
    ¬ precedes (Submission.mk "Alpha" 510 "Unharmed Egg" "Yes")
      (Submission.mk "Alpha" 500 "Unharmed Egg" "No") ∧
    rankedEntries [Submission.mk "Alpha" 510 "Unharmed Egg" "Yes",
        Submission.mk "Alpha" 500 "Unharmed Egg" "No"] =
      [(1, Submission.mk "Alpha" 510 "Unharmed Egg" "Yes"),
       (2, Submission.mk "Alpha" 500 "Unharmed Egg" "No")] ∧
    [Submission.mk "Alpha" 510 "Unharmed Egg" "Yes",
        Submission.mk "Alpha" 500 "Unharmed Egg" "No"].countP
      (fun x => decide (precedes x (Submission.mk "Alpha" 500 "Unharmed Egg" "No"))) = 0 := by
  have hk1 : compute_score_k 500 "Unharmed Egg" "No" = 500 := by
    simp only [compute_score_k]
    rw [if_neg (by decide), if_neg (by decide), if_neg (by decide)]
    norm_num
  have hk2 : compute_score_k 510 "Unharmed Egg" "Yes" = 500 := by
    simp only [compute_score_k]
    rw [if_neg (by decide), if_neg (by decide), if_pos (by decide)]
    norm_num
  have hn12 : ¬ precedes (Submission.mk "Alpha" 500 "Unharmed Egg" "No")
      (Submission.mk "Alpha" 510 "Unharmed Egg" "Yes") := by
    simp only [precedes, subKey]
    rw [hk1, hk2]
    simp
  have hn21 : ¬ precedes (Submission.mk "Alpha" 510 "Unharmed Egg" "Yes")
      (Submission.mk "Alpha" 500 "Unharmed Egg" "No") := by
    simp only [precedes, subKey]
    rw [hk1, hk2]
    simp
  have hsort : sort_values [Submission.mk "Alpha" 510 "Unharmed Egg" "Yes",
      Submission.mk "Alpha" 500 "Unharmed Egg" "No"] =
      [Submission.mk "Alpha" 510 "Unharmed Egg" "Yes",
       Submission.mk "Alpha" 500 "Unharmed Egg" "No"] := by
    have hle : leSub (Submission.mk "Alpha" 510 "Unharmed Egg" "Yes")
        (Submission.mk "Alpha" 500 "Unharmed Egg" "No") := hn12
    simp only [sort_values, List.insertionSort, List.orderedInsert]
    rw [if_pos hle]
  refine ⟨by decide, hn12, hn21, ?_, ?_⟩
  · simp only [rankedEntries, hsort]
    rfl
  · simp [List.countP_cons, decide_eq_false hn21, decide_eq_false (precedes_irrefl _)]

/-- Witness for C2 (amended) at the spec's own example: score-tied teams
"Alpha" and "Beta" (distinct keys via the name tie-break) are ranked 1 and 2
with Alpha first, never in arbitrary order. -/
theorem ranker_dense_on_distinct_keys_witness :
    (rankedEntries [Submission.mk "Beta" 500 "Unharmed Egg" "No",
        Submission.mk "Alpha" 500 "Unharmed Egg" "No"]).map Prod.fst = List.range' 1 2 ∧
    (rankedEntries [Submission.mk "Beta" 500 "Unharmed Egg" "No",
        Submission.mk "Alpha" 500 "Unharmed Egg" "No"]).map (fun p => (p.2).team_name) =
      ["Alpha", "Beta"] := by
  have hne : subKey (Submission.mk "Beta" 500 "Unharmed Egg" "No") ≠
      subKey (Submission.mk "Alpha" 500 "Unharmed Egg" "No") := by
    intro h
    have h2 : ("Beta" : String) = "Alpha" := congrArg Prod.snd h
    exact absurd h2 (by decide)
  have hkeys : [Submission.mk "Beta" 500 "Unharmed Egg" "No",
      Submission.mk "Alpha" 500 "Unharmed Egg" "No"].Pairwise
      (fun s t => subKey s ≠ subKey t) :=
    List.pairwise_cons.mpr
      ⟨fun y hy => by rw [List.mem_singleton.mp hy]; exact hne,
       List.pairwise_singleton _ _⟩
  constructor
  · exact (ranker_dense_on_distinct_keys _ hkeys).2.1
  · have hab : precedes (Submission.mk "Alpha" 500 "Unharmed Egg" "No")
        (Submission.mk "Beta" 500 "Unharmed Egg" "No") :=
      Or.inr ⟨rfl, String.lt_iff_toList_lt.mpr (by decide)⟩
    have hsort : sort_values [Submission.mk "Beta" 500 "Unharmed Egg" "No",
        Submission.mk "Alpha" 500 "Unharmed Egg" "No"] =
        [Submission.mk "Alpha" 500 "Unharmed Egg" "No",
         Submission.mk "Beta" 500 "Unharmed Egg" "No"] := by
      have hnle : ¬ leSub (Submission.mk "Beta" 500 "Unharmed Egg" "No")
          (Submission.mk "Alpha" 500 "Unharmed Egg" "No") := fun hcon => hcon hab
      simp only [sort_values, List.insertionSort, List.orderedInsert]
      rw [if_neg hnle]
    simp only [rankedEntries, hsort]
    rfl

/-- C9 counterexample: zero entries do not imply the empty-state render.  A
fetched table with one raw row whose cost fails to parse passes the raw
`df.empty` check, loses its only row in cleaning — leaving zero entries —
and is rendered as a normally-styled table with zero rows, not as the
empty-state message. -/
theorem empty_entries_render_table :
    run_app ⟨canonical_headers,
      [[Cell.str "9/1/2025 10:00", Cell.str "Alpha", Cell.str "abc",
        Cell.str "Unharmed Egg", Cell.str "No"]]⟩ 0 = Render.table [] ∧
    run_app ⟨canonical_headers,
      [[Cell.str "9/1/2025 10:00", Cell.str "Alpha", Cell.str "abc",
        Cell.str "Unharmed Egg", Cell.str "No"]]⟩ 0 ≠ Render.emptyState := by
  have h : run_app ⟨canonical_headers,
      [[Cell.str "9/1/2025 10:00", Cell.str "Alpha", Cell.str "abc",
        Cell.str "Unharmed Egg", Cell.str "No"]]⟩ 0 = Render.table [] := rfl
  refine ⟨h, ?_⟩
  rw [h]
  exact fun hc => Render.noConfusion hc

/-- C9 (amended): the empty-state render is keyed to the raw fetched table,
not to the number of surviving entries.  When the fetched table has zero
rows the program renders the explicit empty-state message — not an error and
not a table; when the fetched table has at least one raw row the empty-state
is never rendered, even if cleaning drops every row (a normally-styled
zero-row table is rendered in that case). -/
theorem empty_state_on_empty_raw (df : Table) (t : Nat) :
    (df.rows = [] → run_app df t = Render.emptyState) ∧
    (df.rows ≠ [] → run_app df t ≠ Render.emptyState) := by
  constructor
  · intro h
    unfold run_app
    rw [h]
    rfl
  · intro h
    unfold run_app
    have hne : df.rows.isEmpty = false := by
      cases hr : df.rows with
      | nil => exact absurd hr h
      | cons a as => rfl
    rw [hne, if_neg (by simp)]
    cases hnc : normalize_columns df with
    | error hs => exact fun hc => Render.noConfusion hc
    | ok nd => exact fun hc => Render.noConfusion hc

/-- Witness for C9 (amended): an empty raw table renders the empty state; a
one-row raw table does not. -/
theorem empty_state_on_empty_raw_witness :
    run_app ⟨canonical_headers, []⟩ 0 = Render.emptyState ∧
    run_app ⟨canonical_headers, [[Cell.str "t0", Cell.str "Alpha", Cell.str "500",
      Cell.str "Unharmed Egg", Cell.str "No"]]⟩ 0 ≠ Render.emptyState :=
  ⟨(empty_state_on_empty_raw ⟨canonical_headers, []⟩ 0).1 rfl,
   (empty_state_on_empty_raw ⟨canonical_headers, [[Cell.str "t0", Cell.str "Alpha",
      Cell.str "500", Cell.str "Unharmed Egg", Cell.str "No"]]⟩ 0).2
     (List.cons_ne_nil _ _)⟩
